import Mathlib

/-!
Verification of the memfault-linux-sdk end-to-end test harness
(`src/test_scripts/` and `src/test-scripts/`).

The harness code is shallowly embedded:
* wall-clock time (`time.time()`) is a sequence of rational readings
  `clock : ℕ → ℚ`, consumed in the order the code calls `time.time()`;
* a fallible check callback is a list of per-invocation outcomes
  (`Except ε α`): `Except.ok v` when the call returns `v`,
  `Except.error e` when it raises `e`;
* loops that may not terminate are given explicit fuel (for the
  service-state poller) or run over the finite list of outcomes (for the
  HTTP poller); `none` means the loop was still running.
-/

/-- Outcome of `poll_until_not_raising`: either the check's returned value
or the exception re-raised after the deadline. -/
inductive PollOutcome (ε α : Type) where
  | value : α → PollOutcome ε α
  | raised : ε → PollOutcome ε α
deriving DecidableEq

/-- Result of a terminated run of `poll_until_not_raising`, together with
how many times the check callback was invoked and how many times the loop
slept (`time.sleep(poll_interval_seconds)`). -/
structure PollResult (ε α : Type) where
  outcome : PollOutcome ε α
  invocations : ℕ
  sleeps : ℕ
deriving DecidableEq

/-- The `while True` loop of `MemfaultServiceTester.poll_until_not_raising`
(`src/test_scripts/memfault_service_tester.py`; the loop in
`src/test-scripts/memfault_service_tester.py` has the same reachable
behaviour).  `deadline` is the precomputed `time.time() + timeout_seconds`;
`n` counts invocations made so far; the failure branch reads the clock at
index `n + 1` (index `0` was read when the deadline was computed).  Running
off the end of the outcome list yields `none` (the loop would still be
polling). -/
def pollGo (deadline : ℚ) (clock : ℕ → ℚ) :
    List (Except ε α) → ℕ → Option (PollResult ε α)
  | [], _ => none
  | Except.ok v :: _, n => some ⟨PollOutcome.value v, n + 1, n⟩
  | Except.error e :: rest, n =>
    if deadline < clock (n + 1) then some ⟨PollOutcome.raised e, n + 1, n⟩
    else pollGo deadline clock rest (n + 1)

/-- `MemfaultServiceTester.poll_until_not_raising(check, timeout_seconds,
poll_interval_seconds)`: `timeout = time.time() + timeout_seconds` and then
the retry loop. -/
def poll_until_not_raising (clock : ℕ → ℚ) (timeout_seconds : ℚ)
    (results : List (Except ε α)) : Option (PollResult ε α) :=
  pollGo (clock 0 + timeout_seconds) clock results 0

/-- The `SystemdState` literal type of `src/test_scripts/qemu.py` (and
`src/test-scripts/qemu.py`). -/
inductive SystemdState where
  | inactive : SystemdState
  | active : SystemdState
  | deactivating : SystemdState
  | activating : SystemdState
  | reloading : SystemdState
  | failed : SystemdState
  | maintenance : SystemdState
deriving DecidableEq

/-- The string carried by each `SystemdState` literal. -/
def stateName : SystemdState → String
  | SystemdState.inactive => "inactive"
  | SystemdState.active => "active"
  | SystemdState.deactivating => "deactivating"
  | SystemdState.activating => "activating"
  | SystemdState.reloading => "reloading"
  | SystemdState.failed => "failed"
  | SystemdState.maintenance => "maintenance"

/-- The local `states` list of `QEMU.systemd_wait_for_service_state`, in
source order. -/
def statesNames : List String :=
  ["inactive", "active", "deactivating", "activating", "reloading",
   "failed", "maintenance"]

/-- `expected_state_idx = states.index(expected_state)`. -/
def stateIdx (s : SystemdState) : ℕ := statesNames.indexOf (stateName s)

/-- Python list indexing, including the negative-index wraparound used by
`states[last_state_idx]` when `last_state_idx == -1`; `none` is an
`IndexError`. -/
def pyIndex (xs : List α) (i : ℤ) : Option α :=
  if 0 ≤ i then xs.get? i.toNat
  else if 0 ≤ i + (xs.length : ℤ) then xs.get? (i + (xs.length : ℤ)).toNat
  else none

/-- One observable interaction of the QEMU harness with the pexpect
session: a `sendline`, an `expect` against an ordered pattern list, or a
`time.sleep`. -/
inductive QEv where
  | sendline (text : String) : QEv
  | expectPats (pats : List String) : QEv
  | sleep (seconds : ℚ) : QEv
deriving DecidableEq

/-- `QEMU.exec_cmd` of `src/test_scripts/qemu.py`: sendline an empty line,
expect the prompt marker, sendline the command, expect the echoed line
terminator.  The command's own output is left unconsumed. -/
def exec_cmd (cmd : String) : List QEv :=
  [QEv.sendline "", QEv.expectPats ["#"], QEv.sendline cmd,
   QEv.expectPats ["\n"]]

/-- `QEMU.exec_cmd` of `src/test-scripts/qemu.py` (the older variant): it
expects the prompt marker directly, with no initial empty `sendline`. -/
def exec_cmd_legacy (cmd : String) : List QEv :=
  [QEv.expectPats ["#"], QEv.sendline cmd, QEv.expectPats ["\n"]]

/-- How a run of `systemd_wait_for_service_state` ended: a normal return,
or a raised `TimeoutError` carrying `states[last_state_idx]` in its
message. -/
inductive WaitOutcome where
  | returned : WaitOutcome
  | timeoutError (lastState : Option String) : WaitOutcome
deriving DecidableEq

/-- A terminated run of `systemd_wait_for_service_state`: its outcome, the
session events it performed, and how many loop iterations ran. -/
structure WaitResult where
  outcome : WaitOutcome
  trace : List QEv
  iterations : ℕ
deriving DecidableEq

/-- The session events of one loop body iteration of
`systemd_wait_for_service_state` up to the state comparison:
`exec_cmd("systemctl is-active <service>")` followed by
`child().expect(states)`. -/
def iterEvents (service : String) : List QEv :=
  exec_cmd ("systemctl is-active " ++ service) ++ [QEv.expectPats statesNames]

/-- The `while time.time() < timeout` loop of
`QEMU.systemd_wait_for_service_state`.  `obs i` is the index that
`child().expect(states)` returns at iteration `i`; the while condition of
iteration `i` reads the clock at index `i + 1`; `last` is the running
`last_state_idx` (initially `-1`); `fuel` bounds the recursion, `none`
meaning the loop was still running when fuel ran out. -/
def waitGo (deadline : ℚ) (clock : ℕ → ℚ) (obs : ℕ → Fin 7) (service : String)
    (expectedIdx : ℕ) : ℕ → ℕ → ℤ → Option WaitResult
  | 0, _, _ => none
  | fuel + 1, i, last =>
    if clock (i + 1) < deadline then
      if (obs i : ℕ) = expectedIdx then
        some ⟨WaitOutcome.returned, iterEvents service, 1⟩
      else
        match waitGo deadline clock obs service expectedIdx fuel (i + 1)
            ((obs i : ℕ) : ℤ) with
        | none => none
        | some r =>
          some ⟨r.outcome, iterEvents service ++ QEv.sleep (1/10) :: r.trace,
            r.iterations + 1⟩
    else
      some ⟨WaitOutcome.timeoutError (pyIndex statesNames last), [], 0⟩

/-- `QEMU.systemd_wait_for_service_state(service, expected_state,
timeout_seconds)`: computes `states.index(expected_state)`, the deadline
`time.time() + timeout_seconds`, initializes `last_state_idx = -1` and
runs the polling loop. -/
def systemd_wait_for_service_state (clock : ℕ → ℚ) (obs : ℕ → Fin 7)
    (service : String) (expected : SystemdState) (timeout_seconds : ℚ)
    (fuel : ℕ) : Option WaitResult :=
  waitGo (clock 0 + timeout_seconds) clock obs service (stateIdx expected)
    fuel 0 (-1)

/-- The session events of `k` loop iterations that observed a
non-matching state (each ends with the `time.sleep(0.1)`). -/
def failTrace (service : String) : ℕ → List QEv
  | 0 => []
  | k + 1 => iterEvents service ++ QEv.sleep (1/10) :: failTrace service k

/-- The session events of a run with `i` non-matching iterations followed
by one matching iteration. -/
def runTrace (service : String) (i : ℕ) : List QEv :=
  failTrace service i ++ iterEvents service

/-- A reboot event as the harness sees it: the parsed value of its `time`
field (timestamps compare like their parse results) and an opaque
identifier for the rest of the record. -/
structure RebootEvent where
  time : ℤ
  ident : ℕ
deriving DecidableEq

/-- The `_check` closure of
`MemfaultServiceTester.poll_reboot_events_until_count`: one polling
attempt, fed with that attempt's HTTP response.  `none` models a non-ok
response (`list_reboot_events` then returns `None`, with
`expect_status=ANY` its status assertion always passes); the asserts
`events is not None` and `len(events) >= count` fail as `Except.error`;
otherwise the events are sorted ascending by their `time` key and
returned. -/
def checkRebootEvents (count : ℕ) (resp : Option (List RebootEvent)) :
    Except Unit (List RebootEvent) :=
  match resp with
  | none => Except.error ()
  | some events =>
    if count ≤ events.length then
      Except.ok (events.mergeSort (fun a b => a.time ≤ b.time))
    else Except.error ()

/-- `MemfaultServiceTester.poll_reboot_events_until_count(count, ...)`:
`poll_until_not_raising(_check, timeout_seconds=timeout_secs)`, where the
`i`-th invocation of `_check` sees the `i`-th HTTP response. -/
def poll_reboot_events_until_count (clock : ℕ → ℚ) (timeout_secs : ℚ)
    (count : ℕ) (responses : List (Option (List RebootEvent))) :
    Option (PollResult Unit (List RebootEvent)) :=
  poll_until_not_raising clock timeout_secs
    (responses.map (checkRebootEvents count))

/-- `MemfaultServiceTester.list_reports(params, expect_status,
ignore_errors)` given the response's HTTP status code and parsed `data`
field: `assert rv.status_code == expect_status or ignore_errors`, then
`return rv.json()["data"] if rv.status_code == 200 else []`.
`Except.error ()` is the `AssertionError`. -/
def list_reports (status expect_status : ℕ) (ignore_errors : Bool)
    (data : List α) : Except Unit (List α) :=
  if status = expect_status ∨ ignore_errors = true then
    Except.ok (if status = 200 then data else [])
  else Except.error ()

/-- Boolean list-prefix test (structural helper for substring search). -/
def isPrefOf : List Char → List Char → Bool
  | [], _ => true
  | _ :: _, [] => false
  | a :: s, b :: t => a = b && isPrefOf s t

/-- First index at which `pat` occurs as a contiguous run of `hay`, if
any. -/
def findSub (pat : List Char) : List Char → Option ℕ
  | [] => if pat.isEmpty then some 0 else none
  | c :: t =>
    if isPrefOf pat (c :: t) then some 0
    else (findSub pat t).map (· + 1)

/-- Modelled from the spec: the pexpect session state behind
`QEMU.child()` — the buffering discipline of `pexpect.spawn.expect` is not
part of this repository's sources, so it is taken from the spec's Session
contract ("matching consumes the stream up to and including the match";
"the Nth expect call only sees bytes arriving after the (N-1)th match
position").  `arrived` is every byte the child process has produced so
far; `pos` is how much of it earlier matches have consumed. -/
structure ConsoleSession where
  arrived : List Char
  pos : ℕ
deriving DecidableEq

/-- Modelled from the spec: new child output is appended to the stream. -/
def ConsoleSession.feed (s : ConsoleSession) (new : List Char) :
    ConsoleSession :=
  { s with arrived := s.arrived ++ new }

/-- Modelled from the spec: `expect(pattern)` searches only the not yet
consumed part of the stream; on a match it returns the absolute match
start and consumes the stream up to and including the matched text; on no
match it fails (an `ExpectTimeout`, `none` here). -/
def ConsoleSession.expect (s : ConsoleSession) (pat : List Char) :
    Option (ConsoleSession × ℕ) :=
  (findSub pat (s.arrived.drop s.pos)).map fun j =>
    ({ s with pos := s.pos + j + pat.length }, s.pos + j)

theorem pollGo_errors_skipped (deadline : ℚ) (clock : ℕ → ℚ)
    (errs : List ε) (tail : List (Except ε α)) :
    ∀ n : ℕ, (∀ k, k < errs.length → clock (n + k + 1) ≤ deadline) →
    pollGo deadline clock (errs.map Except.error ++ tail) n =
      pollGo deadline clock tail (n + errs.length) := by
  induction errs with
  | nil => intro n _; simp [pollGo]
  | cons e es ih =>
    intro n h
    have h0 : clock (n + 1) ≤ deadline := by
      have := h 0 (Nat.succ_pos _)
      simpa using this
    have hrec := ih (n + 1) (fun k hk => by
      have := h (k + 1) (Nat.succ_lt_succ hk)
      simpa [Nat.add_assoc, Nat.add_comm, Nat.add_left_comm] using this)
    simp only [List.map_cons, List.cons_append, pollGo, if_neg (not_lt.mpr h0),
      List.append_eq]
    rw [hrec]
    congr 1
    simp only [List.length_cons]
    omega

theorem pollGo_invocations_ge (deadline : ℚ) (clock : ℕ → ℚ) :
    ∀ (results : List (Except ε α)) (n : ℕ) (r : PollResult ε α),
    pollGo deadline clock results n = some r → n + 1 ≤ r.invocations := by
  intro results
  induction results with
  | nil => intro n r h; simp [pollGo] at h
  | cons x rest ih =>
    intro n r h
    match x with
    | Except.ok v =>
      simp only [pollGo] at h
      cases h
      simp
    | Except.error e =>
      simp only [pollGo] at h
      by_cases hc : deadline < clock (n + 1)
      · rw [if_pos hc] at h
        cases h
        simp
      · rw [if_neg hc] at h
        have := ih (n + 1) r h
        omega

/-- Claim C1: `poll_until_not_raising` returns the check's value on the
first invocation that succeeds, after exactly one sleep per preceding
failure (no further sleep or retry); and when every invocation fails, once
the clock read after a failure exceeds the deadline it re-raises exactly
that last observed failure `e`, regardless of the earlier failures
`errs`. -/
theorem poll_until_not_raising_first_success_last_raise
    (clock : ℕ → ℚ) (t : ℚ) (errs : List ε) (v : α)
    (rest rest' : List (Except ε α)) (e : ε)
    (h : ∀ k, k < errs.length → clock (k + 1) ≤ clock 0 + t) :
    poll_until_not_raising clock t (errs.map Except.error ++ Except.ok v :: rest) =
      some ⟨PollOutcome.value v, errs.length + 1, errs.length⟩ ∧
    (clock 0 + t < clock (errs.length + 1) →
      poll_until_not_raising clock t
          (errs.map Except.error ++ Except.error e :: rest') =
        some ⟨PollOutcome.raised e, errs.length + 1, errs.length⟩) := by
  constructor
  · unfold poll_until_not_raising
    rw [pollGo_errors_skipped (clock 0 + t) clock errs _ 0
      (fun k hk => by simpa using h k hk)]
    simp [pollGo]
  · intro hlate
    unfold poll_until_not_raising
    rw [pollGo_errors_skipped (clock 0 + t) clock errs _ 0
      (fun k hk => by simpa using h k hk)]
    simp [pollGo, hlate]

theorem poll_until_not_raising_first_success_last_raise_witness :
    poll_until_not_raising (fun n => (n : ℚ)) (3/2)
        (([10].map Except.error ++ Except.ok 7 :: []) : List (Except ℕ ℕ)) =
      some ⟨PollOutcome.value 7, 2, 1⟩ ∧
    poll_until_not_raising (fun n => (n : ℚ)) (3/2)
        (([10].map Except.error ++ Except.error 99 :: []) : List (Except ℕ ℕ)) =
      some ⟨PollOutcome.raised 99, 2, 1⟩ := by
  have h := poll_until_not_raising_first_success_last_raise
    (fun n => (n : ℚ)) (3/2) [10] 7 [] [] 99
    (by intro k hk
        have hk0 : k = 0 := by simpa [Nat.lt_one_iff] using hk
        subst hk0; norm_num)
  exact ⟨h.1, h.2 (by norm_num)⟩

/-- Claim C2: a successful invocation returns its value even when the
deadline has already passed by then (`hlate` says the clock reading that a
failure at that point would have consulted is strictly past the deadline):
the deadline is only consulted on the failure path, never before returning
a successful result. -/
theorem poll_until_not_raising_success_after_deadline
    (clock : ℕ → ℚ) (t : ℚ) (errs : List ε) (v : α) (rest : List (Except ε α))
    (h : ∀ k, k < errs.length → clock (k + 1) ≤ clock 0 + t)
    (hlate : clock 0 + t < clock (errs.length + 1)) :
    poll_until_not_raising clock t (errs.map Except.error ++ Except.ok v :: rest) =
      some ⟨PollOutcome.value v, errs.length + 1, errs.length⟩ := by
  unfold poll_until_not_raising
  rw [pollGo_errors_skipped (clock 0 + t) clock errs _ 0
    (fun k hk => by simpa using h k hk)]
  simp [pollGo]

theorem poll_until_not_raising_success_after_deadline_witness :
    poll_until_not_raising (fun n => (n : ℚ)) (3/2)
        (([10].map Except.error ++ Except.ok 7 :: []) : List (Except ℕ ℕ)) =
      some ⟨PollOutcome.value 7, 2, 1⟩ :=
  poll_until_not_raising_success_after_deadline
    (fun n => (n : ℚ)) (3/2) [10] 7 []
    (by intro k hk
        have hk0 : k = 0 := by simpa [Nat.lt_one_iff] using hk
        subst hk0; norm_num)
    (by norm_num)

/-- Claim C9: the check callback is always invoked at least once before any
timeout decision — a terminated run made at least one invocation, and when
the first invocation succeeds the value is returned for every
`timeout_seconds`, zero and negative included (the instantiation in the
witness uses a negative timeout). -/
theorem poll_until_not_raising_invokes_check_first
    (clock : ℕ → ℚ) (t : ℚ) (results : List (Except ε α)) (r : PollResult ε α)
    (v : α) (rest : List (Except ε α))
    (h : poll_until_not_raising clock t results = some r) :
    1 ≤ r.invocations ∧
    poll_until_not_raising clock t (Except.ok v :: rest) =
      some ⟨PollOutcome.value v, 1, 0⟩ := by
  refine ⟨?_, by simp [poll_until_not_raising, pollGo]⟩
  have := pollGo_invocations_ge (clock 0 + t) clock results 0 r h
  omega

theorem poll_until_not_raising_invokes_check_first_witness :
    1 ≤ (1 : ℕ) ∧
    poll_until_not_raising (fun n => (n : ℚ)) (-1)
        ((Except.ok 5 :: []) : List (Except ℕ ℕ)) =
      some ⟨PollOutcome.value 5, 1, 0⟩ := by
  have h := poll_until_not_raising_invokes_check_first
    (fun n => (n : ℚ)) (-1) ((Except.ok 5 :: []) : List (Except ℕ ℕ))
    ⟨PollOutcome.value 5, 1, 0⟩ 5 []
    (by simp [poll_until_not_raising, pollGo])
  exact ⟨h.1, h.2⟩

theorem runTrace_zero (service : String) :
    runTrace service 0 = iterEvents service := by
  simp [runTrace, failTrace]

theorem runTrace_succ (service : String) (k : ℕ) :
    runTrace service (k + 1) =
      iterEvents service ++ QEv.sleep (1/10) :: runTrace service k := by
  simp [runTrace, failTrace, List.append_assoc]

theorem pyIndex_natCast (xs : List α) (m : ℕ) :
    pyIndex xs ((m : ℤ)) = xs.get? m := by
  simp [pyIndex]

theorem waitGo_reach (deadline : ℚ) (clock : ℕ → ℚ) (obs : ℕ → Fin 7)
    (service : String) (eIdx : ℕ) :
    ∀ (i fuel n : ℕ) (last : ℤ), i < fuel →
    (∀ j, j < i → (obs (n + j) : ℕ) ≠ eIdx) →
    (obs (n + i) : ℕ) = eIdx →
    (∀ j, j ≤ i → clock (n + j + 1) < deadline) →
    waitGo deadline clock obs service eIdx fuel n last =
      some ⟨WaitOutcome.returned, runTrace service i, i + 1⟩ := by
  intro i
  induction i with
  | zero =>
    intro fuel n last hfuel hmiss hhit hclk
    cases fuel with
    | zero => omega
    | succ f =>
      have hc : clock (n + 1) < deadline := by
        have := hclk 0 (le_refl 0)
        simpa using this
      have hhit' : (obs n : ℕ) = eIdx := by simpa using hhit
      simp [waitGo, hc, hhit', runTrace_zero]
  | succ k ih =>
    intro fuel n last hfuel hmiss hhit hclk
    cases fuel with
    | zero => omega
    | succ f =>
      have hc : clock (n + 1) < deadline := by
        have := hclk 0 (Nat.zero_le _)
        simpa using this
      have hm : ¬ ((obs n : ℕ) = eIdx) := by
        have := hmiss 0 (Nat.succ_pos _)
        simpa using this
      have hrec := ih f (n + 1) ((obs n : ℕ) : ℤ) (by omega)
        (fun j hj => by
          have e : n + 1 + j = n + (j + 1) := by omega
          rw [e]
          exact hmiss (j + 1) (by omega))
        (by
          have e : n + 1 + k = n + (k + 1) := by omega
          rw [e]
          exact hhit)
        (fun j hj => by
          have e : n + 1 + j + 1 = n + (j + 1) + 1 := by omega
          rw [e]
          exact hclk (j + 1) (by omega))
      simp only [waitGo, if_pos hc, if_neg hm]
      rw [hrec]
      simp [runTrace_succ]

theorem waitGo_timeout (deadline : ℚ) (clock : ℕ → ℚ) (obs : ℕ → Fin 7)
    (service : String) (eIdx : ℕ) :
    ∀ (i fuel n : ℕ) (last : ℤ), i < fuel →
    (∀ j, j < i → (obs (n + j) : ℕ) ≠ eIdx) →
    (∀ j, j < i → clock (n + j + 1) < deadline) →
    deadline ≤ clock (n + i + 1) →
    waitGo deadline clock obs service eIdx fuel n last =
      some ⟨WaitOutcome.timeoutError
          (pyIndex statesNames
            (if i = 0 then last else ((obs (n + i - 1) : ℕ) : ℤ))),
        failTrace service i, i⟩ := by
  intro i
  induction i with
  | zero =>
    intro fuel n last hfuel hmiss hclk hend
    cases fuel with
    | zero => omega
    | succ f =>
      have hc : ¬ (clock (n + 1) < deadline) := by
        have := hend
        simp only [Nat.add_zero] at this
        exact not_lt.mpr this
      simp [waitGo, hc, failTrace]
  | succ k ih =>
    intro fuel n last hfuel hmiss hclk hend
    cases fuel with
    | zero => omega
    | succ f =>
      have hc : clock (n + 1) < deadline := by
        have := hclk 0 (Nat.succ_pos _)
        simpa using this
      have hm : ¬ ((obs n : ℕ) = eIdx) := by
        have := hmiss 0 (Nat.succ_pos _)
        simpa using this
      have hrec := ih f (n + 1) ((obs n : ℕ) : ℤ) (by omega)
        (fun j hj => by
          have e : n + 1 + j = n + (j + 1) := by omega
          rw [e]
          exact hmiss (j + 1) (by omega))
        (fun j hj => by
          have e : n + 1 + j + 1 = n + (j + 1) + 1 := by omega
          rw [e]
          exact hclk (j + 1) (by omega))
        (by
          have e : n + 1 + k + 1 = n + (k + 1) + 1 := by omega
          rw [e]
          exact hend)
      simp only [waitGo, if_pos hc, if_neg hm]
      rw [hrec]
      have elast : (if k = 0 then ((obs n : ℕ) : ℤ)
          else ((obs (n + 1 + k - 1) : ℕ) : ℤ)) =
          ((obs (n + (k + 1) - 1) : ℕ) : ℤ) := by
        by_cases hk : k = 0
        · subst hk; simp
        · have e : n + 1 + k - 1 = n + (k + 1) - 1 := by omega
          simp [hk, e]
      rw [elast]
      simp [failTrace]

/-- Claim C3: `systemd_wait_for_service_state` returns without error when
the state observed at some iteration `i` equals the expected state and
every clock reading involved is still strictly before the deadline; and
when no observed state matches, once a while-condition reading reaches the
deadline it raises a timeout error whose message carries exactly the last
observed state (`statesNames.get?` applied to the last observation). -/
theorem systemd_wait_for_service_state_reach_or_timeout
    (clock : ℕ → ℚ) (obs : ℕ → Fin 7) (service : String)
    (expected : SystemdState) (t : ℚ) (fuel i : ℕ)
    (hfuel : i < fuel)
    (hmiss : ∀ j, j < i → (obs j : ℕ) ≠ stateIdx expected)
    (hclk : ∀ j, j < i → clock (j + 1) < clock 0 + t) :
    ((obs i : ℕ) = stateIdx expected → clock (i + 1) < clock 0 + t →
      systemd_wait_for_service_state clock obs service expected t fuel =
        some ⟨WaitOutcome.returned, runTrace service i, i + 1⟩) ∧
    (clock 0 + t ≤ clock (i + 1) → 1 ≤ i →
      systemd_wait_for_service_state clock obs service expected t fuel =
        some ⟨WaitOutcome.timeoutError (statesNames.get? ((obs (i - 1) : ℕ))),
          failTrace service i, i⟩) := by
  constructor
  · intro hhit hlastclk
    unfold systemd_wait_for_service_state
    apply waitGo_reach (clock 0 + t) clock obs service
      (stateIdx expected) i fuel 0 (-1) hfuel
      (fun j hj => by simpa using hmiss j hj)
      (by simpa using hhit)
      (fun j hj => by
        rcases Nat.lt_or_ge j i with h | h
        · simpa using hclk j h
        · have : j = i := by omega
          subst this
          simpa using hlastclk)
  · intro hend hi
    unfold systemd_wait_for_service_state
    have h := waitGo_timeout (clock 0 + t) clock obs service
      (stateIdx expected) i fuel 0 (-1) hfuel
      (fun j hj => by simpa using hmiss j hj)
      (fun j hj => by simpa using hclk j hj)
      (by simpa using hend)
    rw [h]
    have hi0 : ¬ (i = 0) := by omega
    simp only [hi0, if_false]
    rw [show ((0 : ℕ) + i - 1) = i - 1 by omega, pyIndex_natCast]

theorem systemd_wait_for_service_state_reach_or_timeout_witness :
    systemd_wait_for_service_state (fun n => (n : ℚ))
        (fun j => if j = 0 then (5 : Fin 7) else 1) "memfaultd"
        SystemdState.active 10 5 =
      some ⟨WaitOutcome.returned, runTrace "memfaultd" 1, 2⟩ ∧
    systemd_wait_for_service_state (fun n => (n : ℚ))
        (fun _ => (5 : Fin 7)) "memfaultd" SystemdState.active (3/2) 5 =
      some ⟨WaitOutcome.timeoutError (some "failed"), failTrace "memfaultd" 1,
        1⟩ := by
  constructor
  · exact (systemd_wait_for_service_state_reach_or_timeout
      (fun n => (n : ℚ)) (fun j => if j = 0 then (5 : Fin 7) else 1)
      "memfaultd" SystemdState.active 10 5 1 (by norm_num)
      (by intro j hj
          have hj0 : j = 0 := by omega
          subst hj0
          decide)
      (by intro j hj
          have hj0 : j = 0 := by omega
          subst hj0
          norm_num)).1 (by decide) (by norm_num)
  · have h := (systemd_wait_for_service_state_reach_or_timeout
      (fun n => (n : ℚ)) (fun _ => (5 : Fin 7)) "memfaultd"
      SystemdState.active (3/2) 5 1 (by norm_num)
      (by intro j hj
          show ((5 : Fin 7) : ℕ) ≠ stateIdx SystemdState.active
          decide)
      (by intro j hj
          have hj0 : j = 0 := by omega
          subst hj0
          norm_num)).2 (by norm_num) (le_refl 1)
    simpa [statesNames] using h

/-- Claim C4: under the same reachability conditions, a run's event trace
is exactly, per iteration: the command executor's events for
`systemctl is-active <service>` (empty-line resync, prompt expect, the
command, the echo expect), then an expect against the full ordered
seven-member state enumeration; iterations whose matched index differs
from the expected index append a 0.1-second sleep and retry, and the
matching iteration returns. -/
theorem systemd_wait_for_service_state_iteration_shape
    (clock : ℕ → ℚ) (obs : ℕ → Fin 7) (service : String)
    (expected : SystemdState) (t : ℚ) (fuel i : ℕ)
    (hfuel : i < fuel)
    (hmiss : ∀ j, j < i → (obs j : ℕ) ≠ stateIdx expected)
    (hhit : (obs i : ℕ) = stateIdx expected)
    (hclk : ∀ j, j ≤ i → clock (j + 1) < clock 0 + t) :
    systemd_wait_for_service_state clock obs service expected t fuel =
      some ⟨WaitOutcome.returned,
        failTrace service i ++
          [QEv.sendline "", QEv.expectPats ["#"],
           QEv.sendline ("systemctl is-active " ++ service),
           QEv.expectPats ["\n"],
           QEv.expectPats ["inactive", "active", "deactivating", "activating",
             "reloading", "failed", "maintenance"]],
        i + 1⟩ ∧
    ∀ k, failTrace service (k + 1) =
      [QEv.sendline "", QEv.expectPats ["#"],
       QEv.sendline ("systemctl is-active " ++ service),
       QEv.expectPats ["\n"],
       QEv.expectPats ["inactive", "active", "deactivating", "activating",
         "reloading", "failed", "maintenance"],
       QEv.sleep (1/10)] ++ failTrace service k := by
  constructor
  · have h := waitGo_reach (clock 0 + t) clock obs service
      (stateIdx expected) i fuel 0 (-1) hfuel
      (fun j hj => by simpa using hmiss j hj)
      (by simpa using hhit)
      (fun j hj => by simpa using hclk j hj)
    unfold systemd_wait_for_service_state
    rw [h]
    simp [runTrace, iterEvents, exec_cmd, statesNames]
  · intro k
    simp [failTrace, iterEvents, exec_cmd, statesNames]

theorem systemd_wait_for_service_state_iteration_shape_witness :
    systemd_wait_for_service_state (fun n => (n : ℚ))
        (fun j => if j = 0 then (5 : Fin 7) else 1) "collectd"
        SystemdState.active 10 5 =
      some ⟨WaitOutcome.returned,
        failTrace "collectd" 1 ++
          [QEv.sendline "", QEv.expectPats ["#"],
           QEv.sendline ("systemctl is-active " ++ "collectd"),
           QEv.expectPats ["\n"],
           QEv.expectPats ["inactive", "active", "deactivating", "activating",
             "reloading", "failed", "maintenance"]],
        2⟩ ∧
    ∀ k, failTrace "collectd" (k + 1) =
      [QEv.sendline "", QEv.expectPats ["#"],
       QEv.sendline ("systemctl is-active " ++ "collectd"),
       QEv.expectPats ["\n"],
       QEv.expectPats ["inactive", "active", "deactivating", "activating",
         "reloading", "failed", "maintenance"],
       QEv.sleep (1/10)] ++ failTrace "collectd" k :=
  systemd_wait_for_service_state_iteration_shape (fun n => (n : ℚ))
    (fun j => if j = 0 then (5 : Fin 7) else 1) "collectd"
    SystemdState.active 10 5 1 (by norm_num)
    (by intro j hj
        have hj0 : j = 0 := by omega
        subst hj0
        decide)
    (by decide)
    (by intro j hj
        interval_cases j <;> norm_num)

/-- Claim C10: with `timeout_seconds ≤ 0` and a clock that does not run
backwards between the deadline computation and the first while-condition
check, the loop body never runs: no `systemctl is-active` command is
issued (the trace is empty, zero iterations), and the raised timeout
error reports the last state as `"maintenance"`, the element at Python
index `-1` of the states list, although no state was ever observed. -/
theorem systemd_wait_for_service_state_nonpositive_timeout
    (clock : ℕ → ℚ) (obs : ℕ → Fin 7) (service : String)
    (expected : SystemdState) (t : ℚ) (fuel : ℕ)
    (ht : t ≤ 0) (hmono : clock 0 ≤ clock 1) (hfuel : 1 ≤ fuel) :
    systemd_wait_for_service_state clock obs service expected t fuel =
      some ⟨WaitOutcome.timeoutError (some "maintenance"), [], 0⟩ := by
  cases fuel with
  | zero => omega
  | succ f =>
    have hc : ¬ (clock (0 + 1) < clock 0 + t) := by
      have : clock 0 + t ≤ clock 1 := by
        calc clock 0 + t ≤ clock 0 + 0 := by linarith
        _ = clock 0 := by ring
        _ ≤ clock 1 := hmono
      simpa using not_lt.mpr this
    unfold systemd_wait_for_service_state
    simp only [waitGo, hc, if_false]
    rfl

theorem systemd_wait_for_service_state_nonpositive_timeout_witness :
    systemd_wait_for_service_state (fun n => (n : ℚ)) (fun _ => (1 : Fin 7))
        "memfaultd" SystemdState.active 0 3 =
      some ⟨WaitOutcome.timeoutError (some "maintenance"), [], 0⟩ :=
  systemd_wait_for_service_state_nonpositive_timeout (fun n => (n : ℚ))
    (fun _ => (1 : Fin 7)) "memfaultd" SystemdState.active 0 3
    (le_refl 0) (by norm_num) (by norm_num)

/-- Claim C5, counterexample: the claim quantifies over `exec_cmd` at both
source locations, but the `src/test-scripts/qemu.py` variant does not
begin by sending an empty line — at the concrete command `"ls"` its first
session event is the prompt expect, and its trace is not the claimed
four-event sequence. -/
theorem exec_cmd_legacy_no_empty_line_counterexample :
    (exec_cmd_legacy "ls").head? ≠ some (QEv.sendline "") ∧
    exec_cmd_legacy "ls" ≠
      [QEv.sendline "", QEv.expectPats ["#"], QEv.sendline "ls",
       QEv.expectPats ["\n"]] := by
  decide

/-- Claim C5 as amended: the `src/test_scripts/qemu.py` `exec_cmd` first
sends an empty line and expects the prompt marker `"#"`, then sends the
command and expects the line-terminator echo `"\n"`, while the older
`src/test-scripts/qemu.py` variant omits the initial empty line and
expects `"#"` directly; neither consumes the command's own output — the
only patterns either variant ever expects are `"#"` and `"\n"`. -/
theorem exec_cmd_prompt_resync
    (cmd : String) :
    exec_cmd cmd =
      [QEv.sendline "", QEv.expectPats ["#"], QEv.sendline cmd,
       QEv.expectPats ["\n"]] ∧
    exec_cmd_legacy cmd =
      [QEv.expectPats ["#"], QEv.sendline cmd, QEv.expectPats ["\n"]] ∧
    (∀ p, QEv.expectPats p ∈ exec_cmd cmd ++ exec_cmd_legacy cmd →
      p = ["#"] ∨ p = ["\n"]) := by
  refine ⟨rfl, rfl, ?_⟩
  intro p hp
  simp only [exec_cmd, exec_cmd_legacy, List.cons_append, List.nil_append,
    List.mem_cons, List.not_mem_nil, or_false] at hp
  rcases hp with h | h | h | h | h | h | h
  · exact QEv.noConfusion h
  · injection h with h'
    exact Or.inl h'
  · exact QEv.noConfusion h
  · injection h with h'
    exact Or.inr h'
  · injection h with h'
    exact Or.inl h'
  · exact QEv.noConfusion h
  · injection h with h'
    exact Or.inr h'

theorem exec_cmd_prompt_resync_witness :
    exec_cmd "ls" =
      [QEv.sendline "", QEv.expectPats ["#"], QEv.sendline "ls",
       QEv.expectPats ["\n"]] ∧
    (["#"] = ["#"] ∨ ["#"] = ["\n"]) :=
  ⟨(exec_cmd_prompt_resync "ls").1,
   (exec_cmd_prompt_resync "ls").2.2 ["#"] (by simp [exec_cmd])⟩

theorem pollGo_value_mem (deadline : ℚ) (clock : ℕ → ℚ) :
    ∀ (results : List (Except ε α)) (n : ℕ) (r : PollResult ε α) (v : α),
    pollGo deadline clock results n = some r →
    r.outcome = PollOutcome.value v → Except.ok v ∈ results := by
  intro results
  induction results with
  | nil => intro n r v h _; simp [pollGo] at h
  | cons x rest ih =>
    intro n r v h hv
    match x with
    | Except.ok w =>
      simp only [pollGo, Option.some.injEq] at h
      subst h
      have hv' : PollOutcome.value w = PollOutcome.value v := hv
      injection hv' with hwv
      subst hwv
      exact List.mem_cons_self _ _
    | Except.error e =>
      simp only [pollGo] at h
      by_cases hc : deadline < clock (n + 1)
      · rw [if_pos hc] at h
        simp only [Option.some.injEq] at h
        subst h
        have hv' : PollOutcome.raised e = PollOutcome.value v := hv
        exact PollOutcome.noConfusion hv'
      · rw [if_neg hc] at h
        exact List.mem_cons_of_mem _ (ih (n + 1) r v h hv)

/-- Claim C7: whenever `poll_reboot_events_until_count(count, ...)`
terminates with a returned list of events, that list has at least `count`
elements and is sorted ascending by the events' timestamp field. -/
theorem poll_reboot_events_until_count_sorted
    (clock : ℕ → ℚ) (t : ℚ) (count : ℕ)
    (responses : List (Option (List RebootEvent)))
    (r : PollResult Unit (List RebootEvent)) (evs : List RebootEvent)
    (h : poll_reboot_events_until_count clock t count responses = some r)
    (hv : r.outcome = PollOutcome.value evs) :
    count ≤ evs.length ∧ evs.Pairwise (fun a b => a.time ≤ b.time) := by
  have h' : pollGo (clock 0 + t) clock
      (responses.map (checkRebootEvents count)) 0 = some r := h
  have hmem := pollGo_value_mem (clock 0 + t) clock
    (responses.map (checkRebootEvents count)) 0 r evs h' hv
  rcases List.mem_map.mp hmem with ⟨resp, _, hresp⟩
  match resp with
  | none => simp [checkRebootEvents] at hresp
  | some events =>
    simp only [checkRebootEvents] at hresp
    by_cases hlen : count ≤ events.length
    · rw [if_pos hlen] at hresp
      injection hresp with hevs
      subst hevs
      constructor
      · simpa [List.length_mergeSort] using hlen
      · have hs := @List.sorted_mergeSort RebootEvent
          (fun a b : RebootEvent => a.time ≤ b.time)
          (by intro a b c hab hbc
              simp only [decide_eq_true_eq] at hab hbc ⊢
              omega)
          (by intro a b
              simp only [Bool.or_eq_true, decide_eq_true_eq]
              omega)
          events
        exact hs.imp (fun hab => by simpa using hab)
    · rw [if_neg hlen] at hresp
      exact absurd hresp (by simp)

theorem poll_reboot_events_until_count_sorted_witness :
    2 ≤ (List.mergeSort [RebootEvent.mk 3 0, RebootEvent.mk 1 1]
      (fun a b => a.time ≤ b.time)).length ∧
    (List.mergeSort [RebootEvent.mk 3 0, RebootEvent.mk 1 1]
      (fun a b => a.time ≤ b.time)).Pairwise
      (fun a b : RebootEvent => a.time ≤ b.time) :=
  poll_reboot_events_until_count_sorted (fun n => (n : ℚ)) 10 2
    [some [RebootEvent.mk 3 0, RebootEvent.mk 1 1]]
    ⟨PollOutcome.value (List.mergeSort [RebootEvent.mk 3 0, RebootEvent.mk 1 1]
      (fun a b => a.time ≤ b.time)), 1, 0⟩
    (List.mergeSort [RebootEvent.mk 3 0, RebootEvent.mk 1 1]
      (fun a b => a.time ≤ b.time))
    (by rfl) rfl

/-- Claim C8: `list_reports` raises its status assertion exactly when the
status differs from `expect_status` and `ignore_errors` is not set; with
`ignore_errors` set any status is accepted; a 200 response yields the
payload's `data` field and, with errors ignored, any other status yields
the empty list. -/
theorem list_reports_status_assertion {α : Type} (status es : ℕ)
    (data : List α) :
    (status ≠ es → list_reports status es false data = Except.error ()) ∧
    (list_reports status es true data =
      Except.ok (if status = 200 then data else [])) ∧
    (status ≠ 200 → list_reports status es true data = Except.ok []) ∧
    (list_reports 200 es true data = Except.ok data) ∧
    (list_reports status status false data =
      Except.ok (if status = 200 then data else [])) := by
  refine ⟨?_, ?_, ?_, ?_, ?_⟩
  · intro hne
    simp [list_reports, hne]
  · simp [list_reports]
  · intro hne
    simp [list_reports, hne]
  · simp [list_reports]
  · simp [list_reports]

theorem list_reports_status_assertion_witness :
    list_reports 404 200 false ([5] : List ℕ) = Except.error () ∧
    list_reports 404 200 true ([5] : List ℕ) = Except.ok [] := by
  have h := list_reports_status_assertion 404 200 ([5] : List ℕ)
  exact ⟨h.1 (by norm_num), h.2.2.1 (by norm_num)⟩

theorem isPrefOf_take : ∀ (p l : List Char), isPrefOf p l = true →
    l.take p.length = p := by
  intro p
  induction p with
  | nil => intro l _; simp
  | cons a s ih =>
    intro l h
    match l with
    | [] => simp [isPrefOf] at h
    | b :: t =>
      simp only [isPrefOf, Bool.and_eq_true, decide_eq_true_eq] at h
      obtain ⟨hab, hrest⟩ := h
      subst hab
      simp [List.take_cons, ih t hrest]

theorem findSub_spec (pat : List Char) :
    ∀ (hay : List Char) (j : ℕ), findSub pat hay = some j →
    (hay.drop j).take pat.length = pat := by
  intro hay
  induction hay with
  | nil =>
    intro j h
    simp only [findSub] at h
    by_cases hp : pat.isEmpty
    · rw [if_pos hp] at h
      injection h with hj
      subst hj
      have hpe : pat = [] := by
        cases pat with
        | nil => rfl
        | cons c t => simp [List.isEmpty] at hp
      simp [hpe]
    · rw [if_neg hp] at h
      exact absurd h (by simp)
  | cons c t ih =>
    intro j h
    simp only [findSub] at h
    by_cases hp : isPrefOf pat (c :: t) = true
    · rw [if_pos hp] at h
      injection h with hj
      subst hj
      simpa using isPrefOf_take pat (c :: t) hp
    · rw [if_neg hp] at h
      rcases Option.map_eq_some'.mp h with ⟨j', hj', rfl⟩
      simpa using ih j' hj'

/-- Claim C6 (modelled from the spec, since pexpect's buffer discipline is
not part of this repository's sources): across two consecutive `expect`
calls on one session stream — with arbitrary new output arriving in
between — the first match starts at or after the consumed position and
consumes the stream up to and including its matched text, and the second
match starts at or after the end of the first match (no backward
re-matching), again consuming through its own matched text. -/
theorem console_expect_ordered
    (s : ConsoleSession) (p1 p2 new : List Char) (s1 s2 : ConsoleSession)
    (m1 m2 : ℕ)
    (h1 : ConsoleSession.expect s p1 = some (s1, m1))
    (h2 : ConsoleSession.expect (ConsoleSession.feed s1 new) p2 =
      some (s2, m2)) :
    s.pos ≤ m1 ∧ s1.pos = m1 + p1.length ∧
    (s.arrived.drop m1).take p1.length = p1 ∧
    m1 + p1.length ≤ m2 ∧ s2.pos = m2 + p2.length ∧
    ((s.arrived ++ new).drop m2).take p2.length = p2 := by
  rcases Option.map_eq_some'.mp h1 with ⟨j1, hf1, he1⟩
  injection he1 with hs1 hm1
  rcases Option.map_eq_some'.mp h2 with ⟨j2, hf2, he2⟩
  injection he2 with hs2 hm2
  subst hs1 hm1 hs2 hm2
  refine ⟨Nat.le_add_right _ _, rfl, ?_, ?_, rfl, ?_⟩
  · have hslice := findSub_spec p1 (s.arrived.drop s.pos) j1 hf1
    rw [List.drop_drop] at hslice
    simpa [Nat.add_comm] using hslice
  · simp [ConsoleSession.feed]
  · have hslice := findSub_spec p2
      (((ConsoleSession.feed { s with pos := s.pos + j1 + p1.length }
        new).arrived).drop
        ((ConsoleSession.feed { s with pos := s.pos + j1 + p1.length }
          new).pos)) j2 hf2
    simp only [ConsoleSession.feed] at hslice ⊢
    rw [List.drop_drop] at hslice
    simpa [Nat.add_comm, Nat.add_assoc, Nat.add_left_comm] using hslice

theorem console_expect_ordered_witness :
    (⟨['a', '#', 'b'], 0⟩ : ConsoleSession).pos ≤ 1 ∧
    (⟨['a', '#', 'b'], 2⟩ : ConsoleSession).pos = 1 + List.length ['#'] ∧
    ((['a', '#', 'b'].drop 1).take (List.length ['#']) = ['#']) ∧
    1 + List.length ['#'] ≤ 4 ∧
    (⟨['a', '#', 'b', 'c', '#'], 5⟩ : ConsoleSession).pos =
      4 + List.length ['#'] ∧
    ((['a', '#', 'b'] ++ ['c', '#']).drop 4).take (List.length ['#']) =
      ['#'] :=
  console_expect_ordered ⟨['a', '#', 'b'], 0⟩ ['#'] ['#'] ['c', '#']
    ⟨['a', '#', 'b'], 2⟩ ⟨['a', '#', 'b', 'c', '#'], 5⟩ 1 4
    (by decide) (by decide)
